import Mathlib

/-!
Verification of the `eth-check` EIP-55 checksum encoder (`src/lib.rs`).

The Rust code is shallowly embedded over lists of natural numbers:

* a Rust `&str` / `String` is modelled as a `List Nat` of Unicode scalar
  values (one entry per `char`);
* a Rust byte buffer (`[u8; N]`, hash digests, UTF-8 byte sequences) is
  modelled as a `List Nat` with every entry below 256;
* `usize` / `u8` arithmetic is modelled on `Nat` (all quantities involved
  are small, so no wrap-around can occur in the source);
* the fallible functions return `Except` / a dedicated result type; the
  possibility of a `panic` in `Checksum::from_str` (byte slicing of a
  string at a position that is not a character boundary) is made explicit
  by a dedicated result constructor.

The Keccak-256 permutation used through `tiny_keccak` is embedded
concretely (rate 136, delimiter 0x01, i.e. the pre-NIST Keccak padding) so
that the concrete test vectors of the repository can be evaluated.
-/

namespace EthCheck

/-- UTF-8 encoded size in bytes of a Unicode scalar value, as Rust's
`char::len_utf8`. -/
def utf8Size (c : Nat) : Nat :=
  if c < 0x80 then 1
  else if c < 0x800 then 2
  else if c < 0x10000 then 3
  else 4

/-- Rust `str::len`: the length in BYTES of a string (sum of the UTF-8
sizes of its characters). -/
def strLen (s : List Nat) : Nat := (s.map utf8Size).sum

/-- UTF-8 encoding of one Unicode scalar value (standard RFC 3629 layout),
as produced by Rust when viewing a `str` as bytes. -/
def utf8EncodeChar (c : Nat) : List Nat :=
  if c < 0x80 then [c]
  else if c < 0x800 then [0xC0 ||| (c >>> 6), 0x80 ||| (c &&& 0x3F)]
  else if c < 0x10000 then
    [0xE0 ||| (c >>> 12), 0x80 ||| ((c >>> 6) &&& 0x3F), 0x80 ||| (c &&& 0x3F)]
  else
    [0xF0 ||| (c >>> 18), 0x80 ||| ((c >>> 12) &&& 0x3F),
     0x80 ||| ((c >>> 6) &&& 0x3F), 0x80 ||| (c &&& 0x3F)]

/-- The byte sequence underlying a string (`str::as_bytes` /
`AsRef<[u8]>`), character by character. -/
def utf8Encode (s : List Nat) : List Nat :=
  s.foldr (fun c acc => utf8EncodeChar c ++ acc) []

/-- Per-character model of Rust `str::to_lowercase`, exact on ASCII
(`A`-`Z` map to `a`-`z`, every other ASCII character is fixed).  Code
points at 0x80 and above are left unchanged here: the source delegates
them to the Unicode case table, and no code point above 0x7F lowercases
into the ASCII hex alphabet, so every theorem below that exercises
lowercasing restricts the string (or is restricted by the code's own
validation) to ASCII, where this model agrees with the source. -/
def charLower (c : Nat) : Nat :=
  if 0x41 ≤ c ∧ c ≤ 0x5A then c + 32 else c

/-- Model of `str::to_lowercase` (see `charLower` for its domain of
exactness). -/
def strToLower (s : List Nat) : List Nat := s.map charLower

/-- Model of `str::char_indices` starting at byte offset `off`: each
character is paired with its BYTE offset in the string, offsets advancing
by the character's UTF-8 size. -/
def charIndicesFrom (off : Nat) : List Nat → List (Nat × Nat)
  | [] => []
  | c :: cs => (off, c) :: charIndicesFrom (off + utf8Size c) cs

/-- Model of `str::char_indices` (byte offsets, starting at 0). -/
def char_indices (s : List Nat) : List (Nat × Nat) := charIndicesFrom 0 s

/-- Model of the pair of byte slices `&input[..2]` / `&input[2..]` taken
by `Checksum::from_str`: `some (pre, rest)` splits the character list at
byte offset 2 when that offset is a character boundary; `none` is the
case in which the Rust slicing operation panics (byte index 2 is out of
bounds or not a character boundary). -/
def splitAt2Bytes : List Nat → Option (List Nat × List Nat)
  | [] => none
  | c1 :: rest =>
    if utf8Size c1 = 2 then some ([c1], rest)
    else if utf8Size c1 = 1 then
      match rest with
      | [] => none
      | c2 :: rest2 => if utf8Size c2 = 1 then some ([c1, c2], rest2) else none
    else none

/-! ## Keccak-256 (`tiny_keccak::Keccak::v256`)

State: 25 lanes of 64 bits, lane `(x, y)` stored at index `x + 5 * y`.
All lane values are kept below `2 ^ 64` by masking. -/

/-- The 64-bit all-ones mask. -/
def mask64 : Nat := 0xFFFFFFFFFFFFFFFF

/-- 64-bit left rotation. -/
def rotl64 (v n : Nat) : Nat := ((v <<< n) &&& mask64) ||| (v >>> (64 - n))

/-- The 24 Keccak-f[1600] round constants (in decimal; e.g. the third is
0x800000000000808A). -/
def keccakRC : List Nat :=
  [1, 32898, 9223372036854808714,
   9223372039002292224, 32907, 2147483649,
   9223372039002292353, 9223372036854808585, 138,
   136, 2147516425, 2147483658,
   2147516555, 9223372036854775947, 9223372036854808713,
   9223372036854808579, 9223372036854808578, 9223372036854775936,
   32778, 9223372039002259466, 9223372039002292353,
   9223372036854808704, 2147483649, 9223372039002292232]

/-- The rho-step rotation offsets, indexed like the state (`x + 5 * y`),
one row (fixed `y`) per list. -/
def rhoOffsets : List Nat :=
  [0, 1, 62, 28, 27] ++
    [36, 44, 6, 55, 20] ++
    [3, 10, 43, 25, 39] ++
    [41, 45, 15, 21, 8] ++
    [18, 2, 61, 56, 14]

/-- One Keccak-f round (theta, rho, pi, chi, iota) with round constant
`rc`. -/
def keccakRound (st : List Nat) (rc : Nat) : List Nat :=
  let A := fun x y => st.getD (x + 5 * y) 0
  let c := fun x => A x 0 ^^^ A x 1 ^^^ A x 2 ^^^ A x 3 ^^^ A x 4
  let d := fun x => c ((x + 4) % 5) ^^^ rotl64 (c ((x + 1) % 5)) 1
  let ta := fun x y => A x y ^^^ d x
  let b := fun x y =>
    rotl64 (ta ((x + 3 * y) % 5) x) (rhoOffsets.getD (((x + 3 * y) % 5) + 5 * x) 0)
  let chi := fun x y => b x y ^^^ ((b ((x + 1) % 5) y ^^^ mask64) &&& b ((x + 2) % 5) y)
  (List.range 25).map (fun i => chi (i % 5) (i / 5) ^^^ (if i = 0 then rc else 0))

/-- The full Keccak-f[1600] permutation: 24 rounds. -/
def keccakF (st : List Nat) : List Nat := keccakRC.foldl keccakRound st

/-- Load lane `k` (0..16) of a 136-byte rate block, little-endian. -/
def loadLane (block : List Nat) (k : Nat) : Nat :=
  (List.range 8).foldl (fun acc j => acc ||| ((block.getD (8 * k + j) 0) <<< (8 * j))) 0

/-- XOR a 136-byte block into the first 17 lanes of the state and
permute. -/
def absorbBlock (st block : List Nat) : List Nat :=
  keccakF ((List.range 25).map
    (fun k => st.getD k 0 ^^^ (if k < 17 then loadLane block k else 0)))

/-- The final, padded rate block: the remaining input bytes, the Keccak
delimiter 0x01 XORed at the end-of-input position and 0x80 XORed into the
last rate byte (the two coincide into 0x81 when the remainder has 135
bytes, exactly as in `tiny_keccak`). -/
def padBlock (rem : List Nat) : List Nat :=
  (List.range 136).map
    (fun j => ((rem.getD j 0) ^^^ (if j = rem.length then 0x01 else 0))
      ^^^ (if j = 135 then 0x80 else 0))

/-- Absorb the whole input: full 136-byte blocks first, then the padded
final block.  `fuel` only bounds the number of full blocks; each step
consumes 136 bytes while spending one unit of fuel, so the initial fuel
`bytes.length` (see `keccakState`) is never exhausted early. -/
def absorbAux (fuel : Nat) (st : List Nat) (bytes : List Nat) : List Nat :=
  match fuel with
  | 0 => absorbBlock st (padBlock bytes)
  | f + 1 =>
    if 136 ≤ bytes.length then
      absorbAux f (absorbBlock st (bytes.take 136)) (bytes.drop 136)
    else absorbBlock st (padBlock bytes)

/-- The sponge state after absorbing `bytes` (initial state all zero). -/
def keccakState (bytes : List Nat) : List Nat :=
  absorbAux bytes.length (List.replicate 25 0) bytes

/-- Squeeze `n` bytes out of the state (little-endian lanes); this models
`tiny_keccak`'s `finalize` into an `n`-byte output buffer for `n` up to
the rate (136), which copies the first `n` state bytes. -/
def squeezeBytes (st : List Nat) (n : Nat) : List Nat :=
  (List.range n).map (fun j => (st.getD (j / 8) 0 >>> (8 * (j % 8))) &&& 0xFF)

/-- The source's `keccak256_hash`: it finalizes the Keccak-256 sponge into
a 40-BYTE buffer (`let mut result: [u8; 40]`), so the squeeze output is 40
bytes long, not the standard 32. -/
def keccak256_hash (bytes : List Nat) : List Nat :=
  squeezeBytes (keccakState bytes) 40

/-- Reference digest, written from the spec's words: the standard
Keccak-256 hash, "a fixed 32-byte (256-bit) cryptographic hash" of the
input bytes.  Used to compare the source's 40-byte buffer against a
conformant primitive. -/
def keccak256_ref (bytes : List Nat) : List Nat :=
  squeezeBytes (keccakState bytes) 32

/-! ## The encoder (`src/lib.rs`) -/

/-- The error enum of the source (`mod error`).  `Utf8Error` is modelled
by its `valid_up_to` field (the length of the longest valid UTF-8 prefix),
the only datum the claims mention. -/
inductive RError where
  | length (expected_either : Nat × Nat) (actual : Nat)
  | prefixErr (expected : List Nat) (actual : List Nat)
  | utf8 (valid_up_to : Nat)
  | hexChar (value : Nat) (index : Nat)
deriving DecidableEq

/-- Outcome of `Checksum::from_str`: a success string, a typed error, or
a panic of the Rust runtime (reachable through byte slicing of the input
at a non-boundary position). -/
inductive RResult where
  | ok (val : List Nat)
  | err (e : RError)
  | panicked
deriving DecidableEq

deriving instance DecidableEq for Except

/-- `RResult.isErr r` is `true` exactly on the `err` constructor. -/
def RResult.isErr : RResult → Bool
  | .err _ => true
  | _ => false

/-- The string `"0x"` (the `PREFIX` constant of the source). -/
def zeroX : List Nat := [0x30, 0x78]

/-- The source's `should_be_uppercased`: the control nibble for position
`i` is the high nibble of digest byte `i / 2` when `i` is even (`i & 1 ==
0`), the low nibble otherwise; the letter is uppercased when that nibble
is at least 8. -/
def should_be_uppercased (array : List Nat) (i : Nat) : Bool :=
  let half_byte_at : Nat :=
    if i &&& 1 = 0 then (array.getD (i / 2) 0) >>> 4
    else (array.getD (i / 2) 0) &&& 0x0F
  decide (8 ≤ half_byte_at)

/-- The `try_fold` of `to_checksum_address`: walk the indexed characters
left to right, pushing digits unchanged and letters `a`-`f` recased by
`should_be_uppercased` (`char::to_uppercase` on `a`-`f` subtracts 32),
and fail at the first character that is neither. -/
def checksumFold (hash : List Nat) (acc : List Nat) :
    List (Nat × Nat) → Except RError (List Nat)
  | [] => Except.ok acc
  | (i, a) :: rest =>
    if 0x30 ≤ a ∧ a ≤ 0x39 then checksumFold hash (acc ++ [a]) rest
    else if 0x61 ≤ a ∧ a ≤ 0x66 then
      checksumFold hash
        (acc ++ [if should_be_uppercased hash i then a - 32 else a]) rest
    else Except.error (RError.hexChar a i)

/-- The source's `to_checksum_address`: lowercase the input (the binding
`address_string = address_string.to_lowercase()`), hash its bytes (the
binding `hash`), then recase/validate in a single left-to-right pass over
`char_indices`. -/
def to_checksum_address (address_string : List Nat) : Except RError (List Nat) :=
  checksumFold (keccak256_hash (utf8Encode (strToLower address_string))) []
    (char_indices (strToLower address_string))

/-- Variant of `to_checksum_address` written from the spec's words: it
derives the case mask from a conformant 32-byte Keccak-256 digest instead
of the source's 40-byte buffer.  Used only to compare the two. -/
def to_checksum_address_ref (address_string : List Nat) : Except RError (List Nat) :=
  checksumFold (keccak256_ref (utf8Encode (strToLower address_string))) []
    (char_indices (strToLower address_string))

/-- The source's `Checksum::from_str`: dispatch on the byte length of the
input; at length 42 slice off the two-byte prefix (panicking when byte 2
is not a character boundary), demand it equals `"0x"`, and re-emit it
verbatim in front of the checksummed body. -/
def from_str (input : List Nat) : RResult :=
  if strLen input = 40 then
    match to_checksum_address input with
    | Except.ok s => RResult.ok s
    | Except.error e => RResult.err e
  else if strLen input = 42 then
    match splitAt2Bytes input with
    | none => RResult.panicked
    | some (pre, rest) =>
      if pre ≠ zeroX then RResult.err (RError.prefixErr zeroX pre)
      else
        match to_checksum_address rest with
        | Except.ok s => RResult.ok (pre ++ s)
        | Except.error e => RResult.err e
  else RResult.err (RError.length (40, 42) (strLen input))

/-! ## The `TryChecksum` convenience trait (`mod try_checksum`) -/

/-- `<str as TryChecksum>::try_checksum`: delegates to
`Checksum::from_str`. -/
def try_checksum_str (s : List Nat) : RResult := from_str s

/-- `<String as TryChecksum>::try_checksum`: delegates to
`Checksum::from_str` (deref to `&str`). -/
def try_checksum_string (s : List Nat) : RResult := from_str s

/-- Model of `std::str::from_utf8` on a byte list: decode the UTF-8 byte
sequence into characters, rejecting (with the byte offset of the start of
the first invalid sequence, `Utf8Error::valid_up_to`) continuation bytes
out of place, overlong encodings, surrogates, code points above 0x10FFFF
and truncated sequences. -/
def utf8DecodeFrom (pos : Nat) (acc : List Nat) : List Nat → Except Nat (List Nat)
  | [] => Except.ok acc
  | b :: rest =>
    if b < 0x80 then utf8DecodeFrom (pos + 1) (acc ++ [b]) rest
    else if b < 0xC2 then Except.error pos
    else if b < 0xE0 then
      match rest with
      | b2 :: rest2 =>
        if 0x80 ≤ b2 ∧ b2 ≤ 0xBF then
          utf8DecodeFrom (pos + 2) (acc ++ [((b - 0xC0) <<< 6) ||| (b2 - 0x80)]) rest2
        else Except.error pos
      | [] => Except.error pos
    else if b < 0xF0 then
      match rest with
      | b2 :: b3 :: rest3 =>
        if (if b = 0xE0 then 0xA0 ≤ b2 ∧ b2 ≤ 0xBF
            else if b = 0xED then 0x80 ≤ b2 ∧ b2 ≤ 0x9F
            else 0x80 ≤ b2 ∧ b2 ≤ 0xBF) ∧ (0x80 ≤ b3 ∧ b3 ≤ 0xBF) then
          utf8DecodeFrom (pos + 3)
            (acc ++ [((b - 0xE0) <<< 12) ||| ((b2 - 0x80) <<< 6) ||| (b3 - 0x80)]) rest3
        else Except.error pos
      | _ => Except.error pos
    else if b < 0xF5 then
      match rest with
      | b2 :: b3 :: b4 :: rest4 =>
        if (if b = 0xF0 then 0x90 ≤ b2 ∧ b2 ≤ 0xBF
            else if b = 0xF4 then 0x80 ≤ b2 ∧ b2 ≤ 0x8F
            else 0x80 ≤ b2 ∧ b2 ≤ 0xBF) ∧ (0x80 ≤ b3 ∧ b3 ≤ 0xBF)
            ∧ (0x80 ≤ b4 ∧ b4 ≤ 0xBF) then
          utf8DecodeFrom (pos + 4)
            (acc ++ [((b - 0xF0) <<< 18) ||| ((b2 - 0x80) <<< 12)
              ||| ((b3 - 0x80) <<< 6) ||| (b4 - 0x80)]) rest4
        else Except.error pos
      | _ => Except.error pos
    else Except.error pos

/-- Model of `std::str::from_utf8`. -/
def utf8Decode (bytes : List Nat) : Except Nat (List Nat) :=
  utf8DecodeFrom 0 [] bytes

/-- `<[u8; 40] as TryChecksum>::try_checksum`: decode the bytes as UTF-8
(the `?` turning a `Utf8Error` into `Error::Utf8` through the `From`
impl), then delegate to `Checksum::from_str`. -/
def try_checksum_arr (b : List Nat) : RResult :=
  match utf8Decode b with
  | Except.error p => RResult.err (RError.utf8 p)
  | Except.ok s => from_str s

/-! ## Concrete inputs (the repository's test vectors and variants) -/

/-- The 40-character test address body
`"e0fc04fa2d34a66b779fd5cee748268032a146c0"`. -/
def addrBody : List Nat :=
  [0x65, 0x30, 0x66, 0x63, 0x30, 0x34, 0x66, 0x61, 0x32, 0x64, 0x33, 0x34,
   0x61, 0x36, 0x36, 0x62, 0x37, 0x37, 0x39, 0x66, 0x64, 0x35, 0x63, 0x65,
   0x65, 0x37, 0x34, 0x38, 0x32, 0x36, 0x38, 0x30, 0x33, 0x32, 0x61, 0x31,
   0x34, 0x36, 0x63, 0x30]

/-- The expected checksummed body
`"e0FC04FA2d34a66B779fd5CEe748268032a146c0"`. -/
def addrChecksummed : List Nat :=
  [0x65, 0x30, 0x46, 0x43, 0x30, 0x34, 0x46, 0x41, 0x32, 0x64, 0x33, 0x34,
   0x61, 0x36, 0x36, 0x42, 0x37, 0x37, 0x39, 0x66, 0x64, 0x35, 0x43, 0x45,
   0x65, 0x37, 0x34, 0x38, 0x32, 0x36, 0x38, 0x30, 0x33, 0x32, 0x61, 0x31,
   0x34, 0x36, 0x63, 0x30]

/-- The all-uppercase variant of the test address body. -/
def addrBodyUpper : List Nat :=
  [0x45, 0x30, 0x46, 0x43, 0x30, 0x34, 0x46, 0x41, 0x32, 0x44, 0x33, 0x34,
   0x41, 0x36, 0x36, 0x42, 0x37, 0x37, 0x39, 0x46, 0x44, 0x35, 0x43, 0x45,
   0x45, 0x37, 0x34, 0x38, 0x32, 0x36, 0x38, 0x30, 0x33, 0x32, 0x41, 0x31,
   0x34, 0x36, 0x43, 0x30]

/-- The last 38 characters `"fc04...46c0"` of the test address, shared by
the invalid-hex-character inputs below. -/
def tail38 : List Nat :=
  [0x66, 0x63, 0x30, 0x34, 0x66, 0x61, 0x32, 0x64, 0x33, 0x34, 0x61, 0x36,
   0x36, 0x62, 0x37, 0x37, 0x39, 0x66, 0x64, 0x35, 0x63, 0x65, 0x65, 0x37,
   0x34, 0x38, 0x32, 0x36, 0x38, 0x30, 0x33, 0x32, 0x61, 0x31, 0x34, 0x36,
   0x63, 0x30]

/-- The repository test input `"eqfc04...46c0"` (`'q'` at body index 1). -/
def eqBody : List Nat := 0x65 :: 0x71 :: tail38

/-- The variant `"eQfc04...46c0"` with an UPPERCASE offending character
`'Q'` at body index 1. -/
def eQBody : List Nat := 0x65 :: 0x51 :: tail38

/-- A 42-BYTE input whose byte 2 is not a character boundary: `'か'`
(U+304B, three UTF-8 bytes) followed by 39 `'0'` characters. -/
def kanaInput : List Nat := 0x304B :: List.replicate 39 0x30

/-- A 42-BYTE input `'0'`, `'é'` (U+00E9, two UTF-8 bytes), then 39 `'0'`
characters: its first two characters are not `"0x"`, and byte 2 is not a
character boundary. -/
def acuteInput : List Nat := 0x30 :: 0xE9 :: List.replicate 39 0x30

/-! ## Vocabulary for the statements and proofs -/

/-- A character accepted by the recasing pass of `to_checksum_address`: a
decimal digit or a lowercase hex letter. -/
def goodChar (a : Nat) : Prop :=
  (0x30 ≤ a ∧ a ≤ 0x39) ∨ (0x61 ≤ a ∧ a ≤ 0x66)

instance (a : Nat) : Decidable (goodChar a) := by
  unfold goodChar
  infer_instance

/-- The value pushed by one step of the recasing fold for an indexed
character that passes validation. -/
def recase (hash : List Nat) (p : Nat × Nat) : Nat :=
  if 0x30 ≤ p.2 ∧ p.2 ≤ 0x39 then p.2
  else if should_be_uppercased hash p.1 then p.2 - 32 else p.2

/-- The control nibble of the spec (§3): the high nibble of digest byte
`i / 2` for even `i`, the low nibble for odd `i`, expressed with `/` and
`%`. -/
def nibbleControl (digest : List Nat) (i : Nat) : Nat :=
  if i % 2 = 0 then digest.getD (i / 2) 0 / 16 else digest.getD (i / 2) 0 % 16

set_option maxRecDepth 40000

/-! ## Character and string lemmas -/

lemma utf8Size_pos (c : Nat) : 1 ≤ utf8Size c := by
  unfold utf8Size
  repeat' split
  all_goals omega

lemma utf8Size_of_lt (c : Nat) (h : c < 0x80) : utf8Size c = 1 := by
  unfold utf8Size
  rw [if_pos h]

lemma charLower_lt_iff (c : Nat) : charLower c < 0x80 ↔ c < 0x80 := by
  unfold charLower
  split <;> omega

lemma utf8Size_charLower (c : Nat) : utf8Size (charLower c) = utf8Size c := by
  unfold charLower
  split
  · rw [utf8Size_of_lt _ (by omega), utf8Size_of_lt _ (by omega)]
  · rfl

lemma charLower_idem (c : Nat) : charLower (charLower c) = charLower c := by
  unfold charLower
  split_ifs <;> omega

lemma charLower_of_not_upper (c : Nat) (h : ¬(0x41 ≤ c ∧ c ≤ 0x5A)) :
    charLower c = c := by
  unfold charLower
  rw [if_neg h]

lemma strLen_cons (c : Nat) (cs : List Nat) :
    strLen (c :: cs) = utf8Size c + strLen cs := by
  simp [strLen]

lemma strLen_append (s t : List Nat) : strLen (s ++ t) = strLen s + strLen t := by
  simp [strLen]

lemma strLen_strToLower (s : List Nat) : strLen (strToLower s) = strLen s := by
  unfold strLen strToLower
  rw [List.map_map]
  congr 1
  exact List.map_congr_left (fun c _ => utf8Size_charLower c)

lemma strLen_ascii : ∀ s : List Nat, (∀ c ∈ s, c < 0x80) → strLen s = s.length
  | [], _ => rfl
  | c :: cs, h => by
    rw [strLen_cons, utf8Size_of_lt c (h c (List.mem_cons_self ..)),
      strLen_ascii cs (fun x hx => h x (List.mem_cons_of_mem _ hx))]
    simp [Nat.add_comm]

lemma strToLower_idem (s : List Nat) : strToLower (strToLower s) = strToLower s := by
  unfold strToLower
  rw [List.map_map]
  exact List.map_congr_left (fun c _ => charLower_idem c)

lemma strToLower_fixed (s : List Nat) (h : ∀ c ∈ s, ¬(0x41 ≤ c ∧ c ≤ 0x5A)) :
    strToLower s = s := by
  unfold strToLower
  have h2 : List.map charLower s = List.map id s :=
    List.map_congr_left (fun c hc => charLower_of_not_upper c (h c hc))
  rw [h2, List.map_id]

lemma ascii_strToLower (s : List Nat) (h : ∀ c ∈ s, c < 0x80) :
    ∀ c ∈ strToLower s, c < 0x80 := by
  intro c hc
  obtain ⟨a, ha, rfl⟩ := List.mem_map.mp hc
  exact (charLower_lt_iff a).mpr (h a ha)

lemma charIndicesFrom_ascii :
    ∀ (s : List Nat) (off : Nat), (∀ c ∈ s, c < 0x80) →
      charIndicesFrom off s = List.enumFrom off s
  | [], _, _ => rfl
  | c :: cs, off, h => by
    unfold charIndicesFrom
    rw [utf8Size_of_lt c (h c (List.mem_cons_self ..)),
      charIndicesFrom_ascii cs (off + 1) (fun x hx => h x (List.mem_cons_of_mem _ hx)),
      List.enumFrom_cons]

lemma snd_mem_charIndicesFrom :
    ∀ (s : List Nat) (off : Nat) (p : Nat × Nat), p ∈ charIndicesFrom off s → p.2 ∈ s
  | c :: cs, off, p, h => by
    unfold charIndicesFrom at h
    rcases List.mem_cons.mp h with h | h
    · rw [h]
      exact List.mem_cons_self ..
    · exact List.mem_cons_of_mem _ (snd_mem_charIndicesFrom cs _ p h)

lemma mem_charIndicesFrom_of_mem :
    ∀ (s : List Nat) (off : Nat) (c : Nat), c ∈ s → ∃ i, (i, c) ∈ charIndicesFrom off s
  | a :: cs, off, c, h => by
    unfold charIndicesFrom
    rcases List.mem_cons.mp h with h | h
    · exact ⟨off, by rw [h]; exact List.mem_cons_self ..⟩
    · obtain ⟨i, hi⟩ := mem_charIndicesFrom_of_mem cs (off + utf8Size a) c h
      exact ⟨i, List.mem_cons_of_mem _ hi⟩

lemma fst_charIndicesFrom_lt :
    ∀ (s : List Nat) (off : Nat) (p : Nat × Nat),
      p ∈ charIndicesFrom off s → p.1 < off + strLen s
  | c :: cs, off, p, h => by
    unfold charIndicesFrom at h
    rw [strLen_cons]
    rcases List.mem_cons.mp h with h | h
    · have := utf8Size_pos c
      have := strLen_cons c cs
      rw [h]
      simp only []
      omega
    · have := fst_charIndicesFrom_lt cs (off + utf8Size c) p h
      omega

lemma getD_map_lt (f : Nat → Nat) :
    ∀ (l : List Nat) (i : Nat), i < l.length → (l.map f).getD i 0 = f (l.getD i 0)
  | c :: cs, 0, _ => rfl
  | c :: cs, i + 1, h => by
    simp only [List.map_cons, List.getD_cons_succ]
    exact getD_map_lt f cs i (by simpa using h)

lemma enumFrom_map_getD (f : Nat × Nat → Nat) :
    ∀ (l : List Nat) (n i : Nat), i < l.length →
      ((List.enumFrom n l).map f).getD i 0 = f (n + i, l.getD i 0)
  | c :: cs, n, 0, _ => by simp
  | c :: cs, n, i + 1, h => by
    simp only [List.enumFrom_cons, List.map_cons, List.getD_cons_succ]
    rw [enumFrom_map_getD f cs (n + 1) i (by simpa using h),
      show n + 1 + i = n + (i + 1) by omega]

/-! ## Lemmas about the recasing fold -/

lemma goodChar_ascii (a : Nat) (h : goodChar a) : a < 0x80 := by
  unfold goodChar at h
  omega

lemma recase_of_good (hash : List Nat) (i a : Nat) (h : goodChar a) :
    recase hash (i, a) =
      if (0x61 ≤ a ∧ a ≤ 0x66) ∧ should_be_uppercased hash i then a - 32 else a := by
  unfold recase goodChar at *
  rcases h with h | h
  · rw [if_pos h, if_neg (by rintro ⟨h1, _⟩; omega)]
  · rw [if_neg (by omega)]
    by_cases hs : should_be_uppercased hash i = true
    · rw [if_pos hs, if_pos ⟨h, hs⟩]
    · rw [if_neg hs, if_neg (by rintro ⟨_, h2⟩; exact hs h2)]

lemma checksumFold_ok (hash : List Nat) :
    ∀ (l : List (Nat × Nat)) (acc : List Nat), (∀ p ∈ l, goodChar p.2) →
      checksumFold hash acc l = Except.ok (acc ++ l.map (recase hash))
  | [], acc, _ => by simp [checksumFold]
  | (i, a) :: rest, acc, h => by
    have hg : goodChar a := h (i, a) (List.mem_cons_self ..)
    have hrest : ∀ p ∈ rest, goodChar p.2 :=
      fun p hp => h p (List.mem_cons_of_mem _ hp)
    unfold goodChar at hg
    unfold checksumFold
    rcases hg with hd | hl
    · rw [if_pos hd, checksumFold_ok hash rest _ hrest]
      simp [recase, hd]
    · have hd : ¬(0x30 ≤ a ∧ a ≤ 0x39) := by omega
      rw [if_neg hd, if_pos hl, checksumFold_ok hash rest _ hrest]
      simp [recase, hd]

lemma checksumFold_good_of_ok (hash : List Nat) :
    ∀ (l : List (Nat × Nat)) (acc out : List Nat),
      checksumFold hash acc l = Except.ok out → ∀ p ∈ l, goodChar p.2
  | [], _, _, _ => by simp
  | (i, a) :: rest, acc, out, h => by
    unfold checksumFold at h
    intro p hp
    rcases List.mem_cons.mp hp with hp | hp
    · subst hp
      unfold goodChar
      by_cases hd : 0x30 ≤ a ∧ a ≤ 0x39
      · omega
      · rw [if_neg hd] at h
        by_cases hl : 0x61 ≤ a ∧ a ≤ 0x66
        · omega
        · rw [if_neg hl] at h
          exact absurd h (by simp)
    · by_cases hd : 0x30 ≤ a ∧ a ≤ 0x39
      · rw [if_pos hd] at h
        exact checksumFold_good_of_ok hash rest _ out h p hp
      · rw [if_neg hd] at h
        by_cases hl : 0x61 ≤ a ∧ a ≤ 0x66
        · rw [if_pos hl] at h
          exact checksumFold_good_of_ok hash rest _ out h p hp
        · rw [if_neg hl] at h
          exact absurd h (by simp)

lemma checksumFold_bad (hash : List Nat) (a i : Nat) (hbad : ¬ goodChar a) :
    ∀ (pre : List (Nat × Nat)) (acc : List Nat) (rest : List (Nat × Nat)),
      (∀ p ∈ pre, goodChar p.2) →
      checksumFold hash acc (pre ++ (i, a) :: rest) = Except.error (RError.hexChar a i)
  | [], acc, rest, _ => by
    unfold goodChar at hbad
    rw [List.nil_append]
    unfold checksumFold
    rw [if_neg (by omega), if_neg (by omega)]
  | (j, b) :: pre, acc, rest, h => by
    have hg : goodChar b := h (j, b) (List.mem_cons_self ..)
    have hpre : ∀ p ∈ pre, goodChar p.2 :=
      fun p hp => h p (List.mem_cons_of_mem _ hp)
    unfold goodChar at hg
    rw [List.cons_append]
    unfold checksumFold
    rcases hg with hd | hl
    · rw [if_pos hd]
      exact checksumFold_bad hash a i hbad pre _ rest hpre
    · rw [if_neg (by omega), if_pos hl]
      exact checksumFold_bad hash a i hbad pre _ rest hpre

lemma checksumFold_error_shape (hash : List Nat) :
    ∀ (l : List (Nat × Nat)) (acc : List Nat) (e : RError),
      checksumFold hash acc l = Except.error e → ∃ v j, e = RError.hexChar v j
  | [], _, _, h => by simp [checksumFold] at h
  | (i, a) :: rest, acc, e, h => by
    unfold checksumFold at h
    by_cases hd : 0x30 ≤ a ∧ a ≤ 0x39
    · rw [if_pos hd] at h
      exact checksumFold_error_shape hash rest _ e h
    · rw [if_neg hd] at h
      by_cases hl : 0x61 ≤ a ∧ a ≤ 0x66
      · rw [if_pos hl] at h
        exact checksumFold_error_shape hash rest _ e h
      · rw [if_neg hl] at h
        exact ⟨a, i, by injection h with h2; rw [← h2]⟩

lemma checksumFold_congr (h1 h2 : List Nat) :
    ∀ (l : List (Nat × Nat)) (acc : List Nat),
      (∀ p ∈ l, should_be_uppercased h1 p.1 = should_be_uppercased h2 p.1) →
      checksumFold h1 acc l = checksumFold h2 acc l
  | [], _, _ => rfl
  | (i, a) :: rest, acc, h => by
    have hi : should_be_uppercased h1 i = should_be_uppercased h2 i :=
      h (i, a) (List.mem_cons_self ..)
    have hrest : ∀ p ∈ rest, should_be_uppercased h1 p.1 = should_be_uppercased h2 p.1 :=
      fun p hp => h p (List.mem_cons_of_mem _ hp)
    unfold checksumFold
    rw [hi]
    by_cases hd : 0x30 ≤ a ∧ a ≤ 0x39
    · rw [if_pos hd, if_pos hd, checksumFold_congr h1 h2 rest _ hrest]
    · rw [if_neg hd, if_neg hd]
      by_cases hl : 0x61 ≤ a ∧ a ≤ 0x66
      · rw [if_pos hl, if_pos hl, checksumFold_congr h1 h2 rest _ hrest]
      · rw [if_neg hl, if_neg hl]

/-! ## Lemmas about `to_checksum_address` and `from_str` -/

lemma snd_mem_enumFrom {α : Type} :
    ∀ (l : List α) (n : Nat) (p : Nat × α), p ∈ List.enumFrom n l → p.2 ∈ l
  | c :: cs, n, p, h => by
    rw [List.enumFrom_cons] at h
    rcases List.mem_cons.mp h with h | h
    · rw [h]
      exact List.mem_cons_self ..
    · exact List.mem_cons_of_mem _ (snd_mem_enumFrom cs (n + 1) p h)

lemma tca_ok (b : List Nat) (hg : ∀ c ∈ strToLower b, goodChar c) :
    to_checksum_address b =
      Except.ok ((List.enumFrom 0 (strToLower b)).map
        (recase (keccak256_hash (utf8Encode (strToLower b))))) := by
  have hascii : ∀ c ∈ strToLower b, c < 0x80 := fun c hc => goodChar_ascii c (hg c hc)
  unfold to_checksum_address char_indices
  rw [checksumFold_ok _ _ _ (fun p hp => hg p.2 (snd_mem_charIndicesFrom _ _ p hp)),
    charIndicesFrom_ascii _ 0 hascii, List.nil_append]

lemma tca_good_of_ok (b o : List Nat) (h : to_checksum_address b = Except.ok o) :
    ∀ c ∈ strToLower b, goodChar c := by
  intro c hc
  unfold to_checksum_address at h
  obtain ⟨i, hi⟩ := mem_charIndicesFrom_of_mem _ 0 c hc
  exact checksumFold_good_of_ok _ _ _ _ h (i, c) hi

lemma tca_error_shape (b : List Nat) (e : RError)
    (h : to_checksum_address b = Except.error e) : ∃ v j, e = RError.hexChar v j := by
  unfold to_checksum_address at h
  exact checksumFold_error_shape _ _ _ _ h

lemma tca_bad (b : List Nat) (hascii : ∀ c ∈ b, c < 0x80)
    (pre : List Nat) (a : Nat) (rest : List Nat)
    (hsplit : strToLower b = pre ++ a :: rest)
    (hpre : ∀ c ∈ pre, goodChar c) (hbad : ¬ goodChar a) :
    to_checksum_address b = Except.error (RError.hexChar a pre.length) := by
  have hlascii : ∀ c ∈ strToLower b, c < 0x80 := ascii_strToLower b hascii
  unfold to_checksum_address char_indices
  rw [charIndicesFrom_ascii _ 0 hlascii, hsplit, List.enumFrom_append,
    List.enumFrom_cons,
    checksumFold_bad _ a _ hbad _ _ _
      (fun p hp => hpre p.2 (snd_mem_enumFrom _ _ p hp)),
    Nat.zero_add]

lemma tca_strToLower (b : List Nat) :
    to_checksum_address (strToLower b) = to_checksum_address b := by
  unfold to_checksum_address
  rw [strToLower_idem]

lemma from_str_body (b : List Nat) (h40 : strLen b = 40) :
    from_str b =
      match to_checksum_address b with
      | Except.ok s => RResult.ok s
      | Except.error e => RResult.err e := by
  unfold from_str
  rw [if_pos h40]

lemma splitAt2Bytes_zeroX (b : List Nat) :
    splitAt2Bytes (zeroX ++ b) = some (zeroX, b) := rfl

lemma from_str_prefixed (b : List Nat) (h40 : strLen b = 40) :
    from_str (zeroX ++ b) =
      match to_checksum_address b with
      | Except.ok s => RResult.ok (zeroX ++ s)
      | Except.error e => RResult.err e := by
  have hlen : strLen (zeroX ++ b) = 42 := by
    rw [strLen_append, h40]
    decide
  unfold from_str
  rw [if_neg (by omega), if_pos hlen, splitAt2Bytes_zeroX]
  show (if zeroX ≠ zeroX then RResult.err (RError.prefixErr zeroX zeroX)
      else match to_checksum_address b with
        | Except.ok s => RResult.ok (zeroX ++ s)
        | Except.error e => RResult.err e) =
    match to_checksum_address b with
    | Except.ok s => RResult.ok (zeroX ++ s)
    | Except.error e => RResult.err e
  rw [if_neg (fun h => h rfl)]

lemma getD_mem_lt {α : Type} : ∀ (l : List α) (i : Nat) (d : α), i < l.length → l.getD i d ∈ l
  | c :: cs, 0, d, _ => List.mem_cons_self ..
  | c :: cs, i + 1, d, h =>
    List.mem_cons_of_mem _ (getD_mem_lt cs i d (by simpa using h))

lemma recase_digit (hash : List Nat) (i a : Nat) (h1 : 0x30 ≤ a) (h2 : a ≤ 0x39) :
    recase hash (i, a) = a := by
  unfold recase
  rw [if_pos ⟨h1, h2⟩]

lemma recase_ascii (hash : List Nat) (i a : Nat) (h : goodChar a) :
    recase hash (i, a) < 0x80 := by
  unfold goodChar at h
  unfold recase
  split_ifs <;> omega

lemma recase_disj (hash : List Nat) (i c : Nat) (hgc : goodChar c) :
    recase hash (i, c) = c ∨
      (0x61 ≤ c ∧ c ≤ 0x66 ∧ recase hash (i, c) = c - 32) := by
  rw [recase_of_good _ i c hgc]
  by_cases hc : (0x61 ≤ c ∧ c ≤ 0x66) ∧ should_be_uppercased hash i = true
  · exact Or.inr ⟨hc.1.1, hc.1.2, by rw [if_pos hc]⟩
  · exact Or.inl (by rw [if_neg hc])

lemma should_be_uppercased_iff (d : List Nat) (i : Nat) :
    should_be_uppercased d i = true ↔ 8 ≤ nibbleControl d i := by
  unfold should_be_uppercased nibbleControl
  rw [Nat.and_one_is_mod]
  by_cases h : i % 2 = 0
  · rw [if_pos h, if_pos h, Nat.shiftRight_eq_div_pow]
    norm_num
  · rw [if_neg h, if_neg h,
      show (0x0F : Nat) = 2 ^ 4 - 1 from rfl, Nat.and_pow_two_sub_one_eq_mod]
    norm_num

lemma getD_range (n j : Nat) (h : j < n) : (List.range n).getD j 0 = j := by
  rw [List.getD_eq_getElem?_getD, List.getElem?_range h]
  rfl

lemma squeezeBytes_getD (st : List Nat) (n j : Nat) (h : j < n) :
    (squeezeBytes st n).getD j 0 = (st.getD (j / 8) 0 >>> (8 * (j % 8))) &&& 0xFF := by
  unfold squeezeBytes
  rw [getD_map_lt _ _ j (by simpa using h), getD_range n j h]

lemma splitAt2Bytes_structure (s pre rest : List Nat)
    (h : splitAt2Bytes s = some (pre, rest)) (hp : pre = zeroX) :
    s = 0x30 :: 0x78 :: rest := by
  subst hp
  cases s with
  | nil => exact absurd h (by simp [splitAt2Bytes])
  | cons c1 r =>
    simp only [splitAt2Bytes] at h
    by_cases h2 : utf8Size c1 = 2
    · rw [if_pos h2] at h
      simp only [Option.some.injEq, Prod.mk.injEq] at h
      exact absurd h.1 (by simp [zeroX])
    · rw [if_neg h2] at h
      by_cases h1 : utf8Size c1 = 1
      · rw [if_pos h1] at h
        cases r with
        | nil => exact absurd h (by simp)
        | cons c2 r2 =>
          dsimp only [] at h
          by_cases hs2 : utf8Size c2 = 1
          · rw [if_pos hs2] at h
            simp only [Option.some.injEq, Prod.mk.injEq] at h
            obtain ⟨hpre, hrest⟩ := h
            have hc1 : c1 = 0x30 ∧ c2 = 0x78 := by
              have := hpre
              simp [zeroX] at this
              exact this
            rw [hc1.1, hc1.2, hrest]
          · rw [if_neg hs2] at h
            exact absurd h (by simp)
      · rw [if_neg h1] at h
        exact absurd h (by simp)

lemma tca_ok_char (b o : List Nat) (h : to_checksum_address b = Except.ok o) :
    (∀ c ∈ b, c < 0x80) ∧ o.length = b.length ∧ (∀ c ∈ o, c < 0x80) ∧
      (∀ i, i < b.length →
        o.getD i 0 =
          recase (keccak256_hash (utf8Encode (strToLower b)))
            (i, charLower (b.getD i 0))) := by
  have hg := tca_good_of_ok b o h
  have hascii : ∀ c ∈ b, c < 0x80 := by
    intro c hc
    have hgc : goodChar (charLower c) := hg _ (List.mem_map_of_mem _ hc)
    exact (charLower_lt_iff c).mp (goodChar_ascii _ hgc)
  have hout := tca_ok b hg
  rw [h] at hout
  injection hout with hout
  subst hout
  refine ⟨hascii, by simp [strToLower], ?_, ?_⟩
  · intro c hc
    obtain ⟨p, hp, rfl⟩ := List.mem_map.mp hc
    obtain ⟨i, a⟩ := p
    exact recase_ascii _ i a (hg a (snd_mem_enumFrom _ _ (i, a) hp))
  · intro i hi
    have hilen : i < (strToLower b).length := by simpa [strToLower] using hi
    rw [enumFrom_map_getD _ _ 0 i hilen, Nat.zero_add]
    congr 1
    exact congrArg _ (by unfold strToLower; exact getD_map_lt charLower b i hi)

lemma from_str_no_utf8 (s : List Nat) (p : Nat) :
    from_str s ≠ RResult.err (RError.utf8 p) := by
  unfold from_str
  by_cases h40 : strLen s = 40
  · rw [if_pos h40]
    cases heq : to_checksum_address s with
    | ok o => simp
    | error e =>
      obtain ⟨v, j, rfl⟩ := tca_error_shape s e heq
      simp
  · rw [if_neg h40]
    by_cases h42 : strLen s = 42
    · rw [if_pos h42]
      cases hsp : splitAt2Bytes s with
      | none => simp
      | some pr =>
        obtain ⟨pre, rest⟩ := pr
        show (if pre ≠ zeroX then RResult.err (RError.prefixErr zeroX pre)
            else match to_checksum_address rest with
              | Except.ok s => RResult.ok (pre ++ s)
              | Except.error e => RResult.err e) ≠ RResult.err (RError.utf8 p)
        by_cases hpz : pre ≠ zeroX
        · rw [if_pos hpz]
          simp
        · rw [if_neg hpz]
          cases heq : to_checksum_address rest with
          | ok o => simp
          | error e =>
            obtain ⟨v, j, rfl⟩ := tca_error_shape rest e heq
            simp
    · rw [if_neg h42]
      simp

/-! ## The claims -/

/-- Claim C1: for every validated 40-character lowercase hex body, the
encoder uppercases the hex letter at 0-based position `i` if and only if
the control nibble for `i` is at least 8, where the control nibble is the
high nibble of digest byte `i / 2` when `i` is even and the low nibble of
digest byte `i / 2` when `i` is odd; decimal digits are emitted
unchanged. -/
theorem claim_C1 (s : List Nat) (hlen : s.length = 40)
    (hhex : ∀ c ∈ s, goodChar c) :
    ∃ out, to_checksum_address s = Except.ok out ∧ out.length = 40 ∧
      ∀ i, i < 40 →
        out.getD i 0 =
          if (0x61 ≤ s.getD i 0 ∧ s.getD i 0 ≤ 0x66)
              ∧ 8 ≤ nibbleControl (keccak256_hash (utf8Encode s)) i
          then s.getD i 0 - 32 else s.getD i 0 := by
  have hfix : strToLower s = s :=
    strToLower_fixed s (fun c hc => by
      have := hhex c hc
      unfold goodChar at this
      omega)
  have hg : ∀ c ∈ strToLower s, goodChar c := by
    rw [hfix]
    exact hhex
  have hout := tca_ok s hg
  rw [hfix] at hout
  refine ⟨_, hout, by simp [hlen], ?_⟩
  intro i hi
  rw [enumFrom_map_getD _ s 0 i (by omega), Nat.zero_add]
  have hgood : goodChar (s.getD i 0) := hhex _ (getD_mem_lt s i 0 (by omega))
  rw [recase_of_good _ i _ hgood]
  simp only [should_be_uppercased_iff]

/-- Claim C1, witness: the nibble rule instantiated on the test body. -/
theorem claim_C1_witness :
    ∃ out, to_checksum_address addrBody = Except.ok out ∧ out.length = 40 ∧
      ∀ i, i < 40 →
        out.getD i 0 =
          if (0x61 ≤ addrBody.getD i 0 ∧ addrBody.getD i 0 ≤ 0x66)
              ∧ 8 ≤ nibbleControl (keccak256_hash (utf8Encode addrBody)) i
          then addrBody.getD i 0 - 32 else addrBody.getD i 0 :=
  claim_C1 addrBody (by decide) (by decide)

/-- Claim C2: `encode` on the prefixed test input
`"0xe0fc04fa2d34a66b779fd5cee748268032a146c0"` returns
`Ok("0xe0FC04FA2d34a66B779fd5CEe748268032a146c0")`, and on the unprefixed
40-character input returns `Ok("e0FC04FA2d34a66B779fd5CEe748268032a146c0")`. -/
theorem claim_C2 :
    from_str (zeroX ++ addrBody) = RResult.ok (zeroX ++ addrChecksummed) ∧
    from_str addrBody = RResult.ok addrChecksummed := by
  have h : to_checksum_address addrBody = Except.ok addrChecksummed := by decide
  constructor
  · rw [from_str_prefixed addrBody (by decide), h]
  · rw [from_str_body addrBody (by decide), h]

/-- Claim C3 (code bug): the claim says `encode` never panics, but on the
42-byte input `'か'` followed by 39 `'0'` characters the byte slice
`&input[..2]` of the source falls inside the first character's UTF-8
encoding, which panics in Rust; the model evaluates to the dedicated
`panicked` outcome, not to a typed error or success. -/
theorem claim_C3 :
    strLen kanaInput = 42 ∧ from_str kanaInput = RResult.panicked ∧
    (from_str kanaInput).isErr = false := by decide

/-- Claim C4, amended: the digest buffer of `keccak256_hash` is 40 bytes
long (not the claimed 32), its 32-byte prefix is exactly the conformant
32-byte Keccak-256 digest of the input bytes. -/
theorem claim_C4 (bs : List Nat) :
    (keccak256_hash bs).length = 40 ∧ (keccak256_ref bs).length = 32 ∧
      (keccak256_hash bs).take 32 = keccak256_ref bs := by
  unfold keccak256_hash keccak256_ref squeezeBytes
  refine ⟨by simp, by simp, ?_⟩
  rw [← List.map_take, List.take_range, show min 32 40 = 32 by decide]

/-- Claim C4, counterexample to the claim as stated: the digest buffer
used by the encoder on the test body has length 40, not 32. -/
theorem claim_C4_cex :
    (keccak256_hash (utf8Encode addrBody)).length = 40 ∧
    (keccak256_hash (utf8Encode addrBody)).length ≠ 32 := by
  unfold keccak256_hash squeezeBytes
  constructor
  · simp
  · simp

/-- Claim C5, amended: for every input whose BYTE length is neither 40
nor 42 `from_str` returns `LengthError` with the accepted pair `(40, 42)`
and the actual length; and for every 42-byte input whose first two
characters are single-byte characters other than `"0x"`, `from_str`
returns `PrefixError` with the expected and actual prefix — regardless of
the rest of the body.  (When byte 2 of a 42-byte input is not a character
boundary the source instead panics; see the counterexample.) -/
theorem claim_C5 :
    (∀ s : List Nat, strLen s ≠ 40 → strLen s ≠ 42 →
        from_str s = RResult.err (RError.length (40, 42) (strLen s))) ∧
    (∀ c1 c2 : Nat, ∀ rest : List Nat, utf8Size c1 = 1 → utf8Size c2 = 1 →
        strLen (c1 :: c2 :: rest) = 42 → [c1, c2] ≠ zeroX →
        from_str (c1 :: c2 :: rest) =
          RResult.err (RError.prefixErr zeroX [c1, c2])) := by
  constructor
  · intro s h40 h42
    unfold from_str
    rw [if_neg h40, if_neg h42]
  · intro c1 c2 rest h1 h2 hlen hne
    unfold from_str
    rw [if_neg (by omega), if_pos hlen]
    have hsp : splitAt2Bytes (c1 :: c2 :: rest) = some ([c1, c2], rest) := by
      simp only [splitAt2Bytes]
      rw [if_neg (by omega), if_pos h1, if_pos h2]
    rw [hsp]
    show (if [c1, c2] ≠ zeroX then RResult.err (RError.prefixErr zeroX [c1, c2])
        else match to_checksum_address rest with
          | Except.ok s => RResult.ok ([c1, c2] ++ s)
          | Except.error e => RResult.err e) =
      RResult.err (RError.prefixErr zeroX [c1, c2])
    rw [if_pos hne]

/-- Claim C5, witness: the length error on `"abc"` and the prefix error
on `"ff" ++` the test body (spec scenarios 4 and 5). -/
theorem claim_C5_witness :
    from_str [0x61, 0x62, 0x63] =
      RResult.err (RError.length (40, 42) (strLen [0x61, 0x62, 0x63])) ∧
    from_str (0x66 :: 0x66 :: addrBody) =
      RResult.err (RError.prefixErr zeroX [0x66, 0x66]) :=
  ⟨claim_C5.1 [0x61, 0x62, 0x63] (by decide) (by decide),
   claim_C5.2 0x66 0x66 addrBody (by decide) (by decide) (by decide) (by decide)⟩

/-- Claim C5, counterexample to the claim as stated: a 42-byte input
whose first two characters (`'0'`, `'é'`) are not `"0x"`, on which the
code panics in the prefix slice instead of returning `PrefixError`. -/
theorem claim_C5_cex :
    strLen acuteInput = 42 ∧ from_str acuteInput = RResult.panicked ∧
    (from_str acuteInput).isErr = false := by decide

/-- Claim C6, amended: for every input with an ASCII body that passes the
length and prefix checks and whose lowercased body contains a character
outside `0-9a-f`, `from_str` returns `InvalidHexCharacter` carrying the
leftmost such character OF THE LOWERCASED BODY (i.e. the lowercase form
of the leftmost offending input character) and its 0-based index in the
body, and no partial output is returned. -/
theorem claim_C6 (body : List Nat) (hascii : ∀ c ∈ body, c < 0x80)
    (hlen : body.length = 40) (pre : List Nat) (a : Nat) (rest : List Nat)
    (hsplit : strToLower body = pre ++ a :: rest)
    (hpre : ∀ c ∈ pre, goodChar c) (hbad : ¬ goodChar a) :
    from_str body = RResult.err (RError.hexChar a pre.length) ∧
    from_str (zeroX ++ body) = RResult.err (RError.hexChar a pre.length) := by
  have h40 : strLen body = 40 := by rw [strLen_ascii body hascii, hlen]
  have htca := tca_bad body hascii pre a rest hsplit hpre hbad
  constructor
  · rw [from_str_body body h40, htca]
  · rw [from_str_prefixed body h40, htca]

/-- Claim C6, witness: the repository's own test vector
`"eqfc04…46c0"` (and its prefixed form) yields
`HexChar { value: 'q', index: 1 }`. -/
theorem claim_C6_witness :
    from_str eqBody = RResult.err (RError.hexChar 0x71 1) ∧
    from_str (zeroX ++ eqBody) = RResult.err (RError.hexChar 0x71 1) :=
  claim_C6 eqBody (by decide) (by decide) [0x65] 0x71 tail38 (by decide)
    (by decide) (by decide)

/-- Claim C6, counterexample to the claim as stated: on the body
`"eQfc04…46c0"` the leftmost character outside `0-9a-fA-F` is `'Q'`
(0x51) at index 1, yet the error carries the lowercased `'q'` (0x71). -/
theorem claim_C6_cex :
    from_str eQBody = RResult.err (RError.hexChar 0x71 1) ∧
    RResult.err (RError.hexChar 0x71 1) ≠ RResult.err (RError.hexChar 0x51 1) := by
  constructor
  · decide
  · decide

/-- Claim C7: encoding is case-insensitive in the address body — for
every valid 40-character hex body (and every `"0x"`-prefixed valid
input), encoding the lowercased input equals encoding the input
itself. -/
theorem claim_C7 :
    (∀ s : List Nat, s.length = 40 →
        (∀ c ∈ s, (0x30 ≤ c ∧ c ≤ 0x39) ∨ (0x61 ≤ c ∧ c ≤ 0x66) ∨
          (0x41 ≤ c ∧ c ≤ 0x46)) →
        from_str (strToLower s) = from_str s) ∧
    (∀ s : List Nat, s.length = 40 →
        (∀ c ∈ s, (0x30 ≤ c ∧ c ≤ 0x39) ∨ (0x61 ≤ c ∧ c ≤ 0x66) ∨
          (0x41 ≤ c ∧ c ≤ 0x46)) →
        from_str (strToLower (zeroX ++ s)) = from_str (zeroX ++ s)) := by
  have key : ∀ s : List Nat, s.length = 40 →
      (∀ c ∈ s, (0x30 ≤ c ∧ c ≤ 0x39) ∨ (0x61 ≤ c ∧ c ≤ 0x66) ∨
        (0x41 ≤ c ∧ c ≤ 0x46)) →
      strLen s = 40 ∧ strLen (strToLower s) = 40 := by
    intro s hlen hhex
    have hascii : ∀ c ∈ s, c < 0x80 := fun c hc => by
      rcases hhex c hc with h | h | h <;> omega
    refine ⟨by rw [strLen_ascii s hascii, hlen], ?_⟩
    rw [strLen_strToLower, strLen_ascii s hascii, hlen]
  constructor
  · intro s hlen hhex
    obtain ⟨h40, h40l⟩ := key s hlen hhex
    rw [from_str_body _ h40l, from_str_body _ h40, tca_strToLower]
  · intro s hlen hhex
    obtain ⟨h40, h40l⟩ := key s hlen hhex
    have hlow : strToLower (zeroX ++ s) = zeroX ++ strToLower s := by
      unfold strToLower
      rw [List.map_append]
      rfl
    rw [hlow, from_str_prefixed _ h40l, from_str_prefixed _ h40, tca_strToLower]

/-- Claim C7, witness: the all-uppercase test address (with and without
prefix) encodes identically to its lowercase form. -/
theorem claim_C7_witness :
    from_str (strToLower addrBodyUpper) = from_str addrBodyUpper ∧
    from_str (strToLower (zeroX ++ addrBodyUpper)) = from_str (zeroX ++ addrBodyUpper) :=
  ⟨claim_C7.1 addrBodyUpper (by decide) (by decide),
   claim_C7.2 addrBodyUpper (by decide) (by decide)⟩

lemma body_out_props (b o : List Nat) (h : to_checksum_address b = Except.ok o) :
    o.length = b.length ∧ (∀ c ∈ b, c < 0x80) ∧ (∀ c ∈ o, c < 0x80) ∧
    (∀ i, i < b.length → 0x30 ≤ b.getD i 0 → b.getD i 0 ≤ 0x39 →
        o.getD i 0 = b.getD i 0) ∧
    (∀ i, i < b.length →
        o.getD i 0 = (strToLower b).getD i 0 ∨
          (0x61 ≤ (strToLower b).getD i 0 ∧ (strToLower b).getD i 0 ≤ 0x66 ∧
            o.getD i 0 = (strToLower b).getD i 0 - 32)) := by
  obtain ⟨hascii, hlen, hoascii, hgetD⟩ := tca_ok_char b o h
  have hg := tca_good_of_ok b o h
  refine ⟨hlen, hascii, hoascii, ?_, ?_⟩
  · intro i hi h1 h2
    rw [hgetD i hi, charLower_of_not_upper _ (by omega), recase_digit _ i _ h1 h2]
  · intro i hi
    have hlow : (strToLower b).getD i 0 = charLower (b.getD i 0) := by
      unfold strToLower
      exact getD_map_lt charLower b i hi
    have hgc : goodChar ((strToLower b).getD i 0) :=
      hg _ (getD_mem_lt _ i 0 (by simpa [strToLower] using hi))
    rw [hgetD i hi, ← hlow]
    exact recase_disj _ i _ hgc

/-- Claim C8: on success the output has the input's length (in characters
and in bytes), decimal digits of the input pass through unchanged at
their positions, the `"0x"` prefix (when the input has length 42) is
emitted verbatim, and the output differs from a simple lowercasing of
the input only in the casing of hex letters. -/
theorem claim_C8 (s out : List Nat) (h : from_str s = RResult.ok out) :
    out.length = s.length ∧ strLen out = strLen s ∧
    (∀ i, i < s.length → 0x30 ≤ s.getD i 0 → s.getD i 0 ≤ 0x39 →
        out.getD i 0 = s.getD i 0) ∧
    (s.length = 42 → out.take 2 = s.take 2) ∧
    (∀ i, i < s.length →
        out.getD i 0 = (strToLower s).getD i 0 ∨
          (0x61 ≤ (strToLower s).getD i 0 ∧ (strToLower s).getD i 0 ≤ 0x66 ∧
            out.getD i 0 = (strToLower s).getD i 0 - 32)) := by
  by_cases h40 : strLen s = 40
  · rw [from_str_body s h40] at h
    cases heq : to_checksum_address s with
    | error e =>
      rw [heq] at h
      exact absurd h (by simp)
    | ok o =>
      rw [heq] at h
      have h2 : RResult.ok o = RResult.ok out := h
      injection h2 with h2
      subst h2
      obtain ⟨hlen, hascii, hoascii, hdig, hdisj⟩ := body_out_props s _ heq
      have hslen : s.length = 40 := by
        rw [← strLen_ascii s hascii]
        exact h40
      refine ⟨hlen, ?_, hdig, ?_, hdisj⟩
      · rw [strLen_ascii _ hoascii, strLen_ascii s hascii, hlen]
      · intro h42
        omega
  · unfold from_str at h
    rw [if_neg h40] at h
    by_cases h42 : strLen s = 42
    · rw [if_pos h42] at h
      cases hsp : splitAt2Bytes s with
      | none =>
        rw [hsp] at h
        exact absurd h (by simp)
      | some pr =>
        obtain ⟨pre, rest⟩ := pr
        rw [hsp] at h
        have h2 : (if pre ≠ zeroX then RResult.err (RError.prefixErr zeroX pre)
            else match to_checksum_address rest with
              | Except.ok s => RResult.ok (pre ++ s)
              | Except.error e => RResult.err e) = RResult.ok out := h
        by_cases hpz : pre ≠ zeroX
        · rw [if_pos hpz] at h2
          exact absurd h2 (by simp)
        · rw [if_neg hpz] at h2
          have hpre : pre = zeroX := not_not.mp hpz
          subst hpre
          cases heq : to_checksum_address rest with
          | error e =>
            rw [heq] at h2
            exact absurd h2 (by simp)
          | ok o =>
            rw [heq] at h2
            have h3 : RResult.ok (zeroX ++ o) = RResult.ok out := h2
            injection h3 with h3
            subst h3
            have hs := splitAt2Bytes_structure s zeroX rest hsp rfl
            subst hs
            obtain ⟨hlen, hascii, hoascii, hdig, hdisj⟩ := body_out_props rest o heq
            refine ⟨?_, ?_, ?_, ?_, ?_⟩
            · show (zeroX ++ o).length = (zeroX ++ rest).length
              rw [List.length_append, List.length_append, hlen]
            · show strLen (zeroX ++ o) = strLen (zeroX ++ rest)
              rw [strLen_append, strLen_append, strLen_ascii o hoascii,
                strLen_ascii rest hascii, hlen]
            · intro i hi h1 h2b
              match i, hi with
              | 0, _ => rfl
              | 1, _ => rfl
              | j + 2, hi =>
                exact hdig j (by simp only [List.length_cons] at hi; omega) h1 h2b
            · intro _
              rfl
            · intro i hi
              match i, hi with
              | 0, _ => exact Or.inl rfl
              | 1, _ => exact Or.inl rfl
              | j + 2, hi =>
                exact hdisj j (by simp only [List.length_cons] at hi; omega)
    · rw [if_neg h42] at h
      exact absurd h (by simp)

/-- Claim C8, witness: the test body succeeds and its output has the
input's length. -/
theorem claim_C8_witness :
    from_str addrBody = RResult.ok addrChecksummed ∧
    addrChecksummed.length = addrBody.length := by
  have hd : from_str addrBody = RResult.ok addrChecksummed := by decide
  exact ⟨hd, (claim_C8 addrBody addrChecksummed hd).1⟩

/-- Claim C9: the convenience wrappers are equivalent to the canonical
entry point — `try_checksum` on `str` and `String` is exactly
`Checksum::from_str`, and on a 40-byte array it returns the `Utf8`
decoding error exactly when the bytes are not valid UTF-8, and otherwise
equals `Checksum::from_str` of the decoded string. -/
theorem claim_C9 :
    (∀ s : List Nat, try_checksum_str s = from_str s) ∧
    (∀ s : List Nat, try_checksum_string s = from_str s) ∧
    (∀ b : List Nat, b.length = 40 →
      ((∃ p, try_checksum_arr b = RResult.err (RError.utf8 p)) ↔
          ∀ s, utf8Decode b ≠ Except.ok s) ∧
        ∀ s, utf8Decode b = Except.ok s → try_checksum_arr b = from_str s) := by
  refine ⟨fun s => rfl, fun s => rfl, fun b hb => ⟨⟨?_, ?_⟩, ?_⟩⟩
  · rintro ⟨p, hp⟩ s hs
    unfold try_checksum_arr at hp
    rw [hs] at hp
    exact from_str_no_utf8 s p hp
  · intro hnone
    unfold try_checksum_arr
    cases hd : utf8Decode b with
    | ok s => exact absurd hd (hnone s)
    | error q => exact ⟨q, rfl⟩
  · intro s hs
    unfold try_checksum_arr
    rw [hs]

/-- Claim C9, witness: the wrappers agree with `from_str` on concrete
inputs — a one-character string and the 40-byte ASCII array of the test
body (which decodes to itself). -/
theorem claim_C9_witness :
    try_checksum_str [0x61] = from_str [0x61] ∧
    try_checksum_arr addrBody = from_str addrBody :=
  ⟨claim_C9.1 [0x61],
   (claim_C9.2.2 addrBody (by decide)).2 addrBody (by decide)⟩

/-- Claim C10: `should_be_uppercased` reads only digest bytes below index
20 for body positions below 40, so the encoder produces exactly the same
result from the implementation's 40-byte digest buffer as it would from a
conformant 32-byte Keccak-256 digest. -/
theorem claim_C10 :
    (∀ a b : List Nat, (∀ j, j < 20 → a.getD j 0 = b.getD j 0) →
      ∀ i, i < 40 → should_be_uppercased a i = should_be_uppercased b i) ∧
    (∀ s : List Nat, strLen s ≤ 40 →
      to_checksum_address s = to_checksum_address_ref s) := by
  constructor
  · intro a b hab i hi
    unfold should_be_uppercased
    rw [hab (i / 2) (by omega)]
  · intro s hs
    unfold to_checksum_address to_checksum_address_ref
    refine checksumFold_congr _ _ _ _ ?_
    intro p hp
    unfold char_indices at hp
    have hlt : p.1 < 40 := by
      have h1 := fst_charIndicesFrom_lt (strToLower s) 0 p hp
      have h2 := strLen_strToLower s
      omega
    unfold should_be_uppercased
    have hag : (keccak256_hash (utf8Encode (strToLower s))).getD (p.1 / 2) 0 =
        (keccak256_ref (utf8Encode (strToLower s))).getD (p.1 / 2) 0 := by
      unfold keccak256_hash keccak256_ref
      rw [squeezeBytes_getD _ _ _ (by omega), squeezeBytes_getD _ _ _ (by omega)]
    rw [hag]

/-- Claim C10, witness: two buffers agreeing on their first 20 bytes give
the same decision at position 5, and the test body encodes identically
with the 40-byte buffer and the 32-byte digest. -/
theorem claim_C10_witness :
    should_be_uppercased (List.replicate 20 0xFF) 5 =
      should_be_uppercased (List.replicate 20 0xFF ++ [0x00]) 5 ∧
    to_checksum_address addrBody = to_checksum_address_ref addrBody :=
  ⟨claim_C10.1 (List.replicate 20 0xFF) (List.replicate 20 0xFF ++ [0x00])
      (by decide) 5 (by decide),
   claim_C10.2 addrBody (by decide)⟩

end EthCheck
